import Mathlib

/-!
# Verification of the TransactionDB handle-lifecycle and column-family registry layer

Shallow embedding of `src/transactions/transaction_db.rs` (rust-rocksdb).
The external storage engine is reached only through FFI calls; the embedding
models each engine response explicitly (an `OpenEnv` record for the open path,
`Except`-valued responses elsewhere) and translates the Rust control flow of
the wrapper functions faithfully.  Raw C pointers become `Option Nat`
(`none` is the null pointer); Rust `Result<A, Error>` becomes
`Except Error A`; a Rust panic is a dedicated outcome constructor.
-/

set_option autoImplicit false

namespace TxnDBModel

/-- An engine handle value; a non-null raw pointer. -/
abbrev Handle := Nat

/-- A raw engine pointer: `none` models the null pointer. -/
abbrev RawPtr := Option Handle

/-- Byte strings (keys and values) as lists of bytes. -/
abbrev Bytes := List Nat

/-- The crate's uniform error type: a wrapper around a message string
(`Error::new(msg)` in the source). -/
structure Error where
  message : String
deriving DecidableEq, Repr

/-- Outcome of a Rust computation that may return, error, or panic.
`panic` models an actual Rust panic (e.g. `Result::unwrap` on `Err`),
which is not a returned value. -/
inductive POutcome (α : Type) where
  | ok (a : α)
  | err (e : Error)
  | panic (msg : String)
deriving DecidableEq, Repr

/-- Engine FFI calls that matter for handle-lifecycle claims, recorded as an
event trace. -/
inductive Event where
  | openRaw
  | openCfRaw
  | destroyCf (h : RawPtr)
  | closeDb (h : Handle)
deriving DecidableEq, Repr

/-- `true` exactly on `Event.closeDb` events. -/
def Event.isCloseDb : Event → Bool
  | .closeDb _ => true
  | _ => false

/-- `true` exactly on `Event.destroyCf` events. -/
def Event.isDestroyCf : Event → Bool
  | .destroyCf _ => true
  | _ => false

/-! ## Association-list maps

`BTreeMap<String, _>` (the single-threaded registry), the `RwLock`-protected
map of the multi-threaded registry, and the modelled engine key-value store
are all represented as association lists with insert-replace semantics:
`assocPut` removes any existing entry for the key and appends the new one,
which matches a map insert up to entry order (no claim depends on entry
order). -/

/-- Map insert with replacement: drop any existing entry for `k`, append
`(k, v)`. -/
def assocPut {α β : Type} [DecidableEq α] (m : List (α × β)) (k : α) (v : β) :
    List (α × β) :=
  m.filter (fun p => decide (p.1 ≠ k)) ++ [(k, v)]

/-- Map lookup: value of the first entry whose key is `k`. -/
def assocGet {α β : Type} [DecidableEq α] (m : List (α × β)) (k : α) : Option β :=
  (m.find? (fun p => decide (p.1 = k))).map (fun p => p.2)

/-- Map removal: drop every entry for `k`. -/
def assocDel {α β : Type} [DecidableEq α] (m : List (α × β)) (k : α) :
    List (α × β) :=
  m.filter (fun p => decide (p.1 ≠ k))

/-- The column-family registry: name to raw column-family handle, as stored by
both `SingleThreaded` (`BTreeMap<String, ColumnFamily>`) and `MultiThreaded`
(`RwLock<BTreeMap<String, Arc<UnboundColumnFamily>>>`); in both, the payload
is the raw engine pointer. -/
abbrev Registry := List (String × RawPtr)

/-! ## Column-family descriptors and name marshalling -/

/-- `DEFAULT_COLUMN_FAMILY_NAME` from the crate root. -/
def defaultColumnFamilyName : String := "default"

/-- A `ColumnFamilyDescriptor`: name plus creation options (the options are
opaque to every claim and omitted). -/
structure CFDesc where
  name : String
deriving DecidableEq, Repr

/-- `CString::new(name.as_bytes())` fails exactly when the UTF-8 bytes contain
an interior NUL, i.e. when the string contains the NUL character. -/
def containsNul (s : String) : Bool :=
  s.data.any (fun c => decide (c.toNat = 0))

/-- Panic message marker for `CString::new(..).unwrap()` on a name with an
interior NUL (`open_cf_descriptors_internal`, the `c_cfs` marshalling). -/
def cstringUnwrapPanicMsg : String :=
  "called Result::unwrap() on an Err value: NulError"

/-- Error message of `open_cf_descriptors_internal` when the engine returns a
null column-family handle after a reported-success open. -/
def nullCfHandleMsg : String := "Received null column family handle from DB."

/-- Error message of `open_cf_descriptors_internal` when the engine returns a
null database handle. -/
def nullDbMsg : String := "Could not initialize database."

/-- Error message of `create_inner_cf_handle` when the name cannot be
converted to a `CString`. -/
def createCfCStringMsg : String :=
  "Failed to convert path to CString when creating cf"

/-- `Error::new(format!("Failed to create RocksDB directory: `{:?}`."))`;
the embedded `Debug` rendering of the I/O error is abstracted to a string. -/
def dirErrorMsg (e : String) : String :=
  "Failed to create RocksDB directory: " ++ e ++ "."

/-! ## The open path -/

/-- Responses of the collaborators touched by `open_cf_descriptors_internal`:
`to_cpath` (path marshalling), `fs::create_dir_all`, and the two engine open
calls.  `cfOpenHandle i` is the handle the engine wrote into slot `i` of the
`cfhandles` output vector when `rocksdb_transactiondb_open_column_families`
reported success. -/
structure OpenEnv where
  cpathErr : Option Error
  dirErr : Option String
  rawOpen : Except String RawPtr
  cfOpenErr : Option String
  cfOpenDb : RawPtr
  cfOpenHandle : Nat → RawPtr

/-- A `TransactionDB` value as constructed by a successful open: the (non-null,
by the `db.is_null()` check) engine database handle and the column-family
registry.  `path` and the `_outlive` options vector carry no claim-relevant
state and are omitted. -/
structure TxnDB where
  inner : Handle
  cfs : Registry
deriving DecidableEq, Repr

/-- The default-column-family normalization step of
`open_cf_descriptors_internal`: if no descriptor carries the default name,
append one with default options. -/
def augmentDefault (cfs : List CFDesc) : List CFDesc :=
  if cfs.any (fun cf => decide (cf.name = defaultColumnFamilyName)) then cfs
  else cfs ++ [⟨defaultColumnFamilyName⟩]

/-- `xs.allSome`: `some` of the unwrapped list when no element is `none`. -/
def allSome {α : Type} : List (Option α) → Option (List α)
  | [] => some []
  | none :: _ => none
  | some a :: xs => (allSome xs).map (fun ys => a :: ys)

/-- The registry-population loop of `open_cf_descriptors_internal`:
`for (cf_desc, inner) in cfs_v.iter().zip(cfhandles) { cf_map.insert(..) }`. -/
def buildRegistry (l : List (String × RawPtr)) : Registry :=
  l.foldl (fun m p => assocPut m p.1 p.2) []

/-- `TransactionDB::open_cf_descriptors_internal`, with the collaborator
responses supplied by `env`.  Returns the outcome together with the trace of
engine lifecycle calls the function itself makes. -/
def openCfDescriptorsInternal (env : OpenEnv) (cfs : List CFDesc) :
    POutcome TxnDB × List Event :=
  match env.cpathErr with
  | some e => (.err e, [])
  | none =>
    match env.dirErr with
    | some m => (.err ⟨dirErrorMsg m⟩, [])
    | none =>
      if cfs = [] then
        match env.rawOpen with
        | .error m => (.err ⟨m⟩, [.openRaw])
        | .ok none => (.err ⟨nullDbMsg⟩, [.openRaw])
        | .ok (some d) => (.ok ⟨d, []⟩, [.openRaw])
      else
        if (augmentDefault cfs).any (fun cf => containsNul cf.name) then
          (.panic cstringUnwrapPanicMsg, [])
        else
          match env.cfOpenErr with
          | some m => (.err ⟨m⟩, [.openCfRaw])
          | none =>
            match allSome ((List.range (augmentDefault cfs).length).map
                env.cfOpenHandle) with
            | none => (.err ⟨nullCfHandleMsg⟩, [.openCfRaw])
            | some hs =>
              match env.cfOpenDb with
              | none => (.err ⟨nullDbMsg⟩, [.openCfRaw])
              | some d =>
                (.ok ⟨d, buildRegistry (((augmentDefault cfs).map
                  CFDesc.name).zip (hs.map (fun h => some h)))⟩, [.openCfRaw])

/-- `TransactionDB::open_cf_descriptors` delegates to the internal open. -/
def openCfDescriptors (env : OpenEnv) (cfs : List CFDesc) :
    POutcome TxnDB × List Event :=
  openCfDescriptorsInternal env cfs

/-- `TransactionDB::open_cf`: builds default-option descriptors for each name
and delegates to the internal open. -/
def openCf (env : OpenEnv) (names : List String) : POutcome TxnDB × List Event :=
  openCfDescriptorsInternal env (names.map (fun n => ⟨n⟩))

/-- `TransactionDB::open`: `open_cf` with an empty name set. -/
def openDb (env : OpenEnv) : POutcome TxnDB × List Event :=
  openCf env []

/-! ## Teardown (`Drop for TransactionDB`) -/

/-- Modelled from the spec: `ThreadMode::drop_all_cfs_internal` is declared
outside this file; per §4.1 the registry teardown "iterates every entry and
releases the underlying engine column-family handle via the engine's
close-column-family operation". -/
def dropAllCfsInternal (reg : Registry) : List Event :=
  reg.map (fun p => .destroyCf p.2)

/-- `Drop for TransactionDB`: tear down the registry, then
`rocksdb_transactiondb_close(self.inner)`.  Returns the trace of engine
lifecycle calls, in order. -/
def dropTxnDB (db : TxnDB) : List Event :=
  dropAllCfsInternal db.cfs ++ [.closeDb db.inner]

/-! ## Transactions -/

/-- A `Transaction` handle: the raw engine transaction pointer as returned by
`rocksdb_transaction_begin` (possibly null), per the struct literal in
`transaction_opt`. -/
structure Txn where
  inner : RawPtr
deriving DecidableEq, Repr

/-- `TransactionDB::transaction_opt`: wraps whatever pointer
`rocksdb_transaction_begin` returns — there is no null check and no error
path. `beginResult` is the engine's returned pointer. -/
def transactionOpt (beginResult : RawPtr) : Txn :=
  { inner := beginResult }

/-- `TransactionDB::transaction`: `transaction_opt` with default write and
transaction options (the options do not affect the wrapper's control flow). -/
def transaction (beginResult : RawPtr) : Txn :=
  transactionOpt beginResult

/-- Modelled from the spec (§4.4, the claim's reading): transaction creation
in which a failed/null engine begin result "is a fatal error surfaced
immediately rather than deferred to first use" — i.e. creation reports an
error when the engine hands back a null transaction handle.  Stated only to
be compared against `transactionOpt`. -/
def transactionOptPerSpec (beginResult : RawPtr) : Except Error Txn :=
  match beginResult with
  | none => .error ⟨"begin transaction returned a null handle"⟩
  | some h => .ok { inner := some h }

/-! ## The read façade (`get` family)

`ReadOptions` carries no claim-relevant state; only the distinction between
"default options" (`ReadOptions::default()`) and an explicit value matters
for the funnelling structure, so it is a unit-like marker type. -/

/-- Opaque read options; `dflt` stands for `ReadOptions::default()`. -/
inductive ReadOptions where
  | dflt
  | explicit (tag : Nat)
deriving DecidableEq, Repr

/-- The tail of `get_opt` / `get_cf_opt` after the `ffi_try!` engine call:
an engine error becomes `Err(Error)`, a null value pointer becomes
`Ok(None)`, a non-null pointer is copied out as `Ok(Some(value))`. -/
def getRespToResult (resp : Except String (Option Bytes)) :
    Except Error (Option Bytes) :=
  match resp with
  | .error m => .error ⟨m⟩
  | .ok none => .ok none
  | .ok (some v) => .ok (some v)

/-- The engine's read responses: `rocksdb_transactiondb_get` and
`rocksdb_transactiondb_get_cf`, as functions of key, read options and (for
the cf form) the column-family handle.  `.error m` is an `errptr` failure;
`.ok none` is a reported-success null value pointer ("not found"). -/
structure EngineReader where
  getResp : Bytes → ReadOptions → Except String (Option Bytes)
  getCfResp : RawPtr → Bytes → ReadOptions → Except String (Option Bytes)

/-- `TransactionDB::get_opt`. -/
def getOpt (e : EngineReader) (key : Bytes) (readopts : ReadOptions) :
    Except Error (Option Bytes) :=
  getRespToResult (e.getResp key readopts)

/-- `TransactionDB::get`: `get_opt` with default read options. -/
def dbGet (e : EngineReader) (key : Bytes) : Except Error (Option Bytes) :=
  getOpt e key .dflt

/-- `TransactionDB::get_cf_opt`. -/
def getCfOpt (e : EngineReader) (cf : RawPtr) (key : Bytes)
    (readopts : ReadOptions) : Except Error (Option Bytes) :=
  getRespToResult (e.getCfResp cf key readopts)

/-- `TransactionDB::get_cf`: `get_cf_opt` with default read options. -/
def dbGetCf (e : EngineReader) (cf : RawPtr) (key : Bytes) :
    Except Error (Option Bytes) :=
  getCfOpt e cf key .dflt

/-! ## The write façade against the correct-engine model

The spec treats the engine's put/get/delete primitives as external
collaborators "assumed correct" (§1); for the round-trip claim they are
modelled as a key-value map per column family.  The wrapper bodies
(`put_opt`, `delete_opt`, `get_opt`) translate exactly: the mutations run
`ffi_try!` and return `Ok(())`, the read maps null to `Ok(None)`. -/

/-- Modelled from the spec: the engine's key-value store of one column
family. -/
abbrev KVState := List (Bytes × Bytes)

/-- Modelled from the spec: the engine's put primitive (map insert). -/
def enginePut (s : KVState) (k v : Bytes) : KVState := assocPut s k v

/-- Modelled from the spec: the engine's point lookup (map lookup; `none`
is the null value pointer, "not found"). -/
def engineGet (s : KVState) (k : Bytes) : Option Bytes := assocGet s k

/-- Modelled from the spec: the engine's delete primitive (map removal). -/
def engineDelete (s : KVState) (k : Bytes) : KVState := assocDel s k

/-- `TransactionDB::put_opt` run against the correct-engine model: the
engine call succeeds, the state is updated, and the wrapper returns
`Ok(())`. -/
def putOptKV (s : KVState) (k v : Bytes) : Except Error Unit × KVState :=
  (.ok (), enginePut s k v)

/-- `TransactionDB::delete_opt` against the correct-engine model. -/
def deleteOptKV (s : KVState) (k : Bytes) : Except Error Unit × KVState :=
  (.ok (), engineDelete s k)

/-- `TransactionDB::get_opt` against the correct-engine model: the engine
reports success and returns the stored value pointer (null when absent). -/
def getOptKV (s : KVState) (k : Bytes) : Except Error (Option Bytes) :=
  getRespToResult (.ok (engineGet s k))

/-! ## Creating column families after open -/

/-- `TransactionDB::create_inner_cf_handle`: marshal the name (a conversion
failure is returned as an error, not a panic), then run the engine's
create-column-family through `ffi_try!`.  `engineCreate` is the engine's
response: an `errptr` message or the returned raw handle. -/
def createInnerCfHandle (engineCreate : Except String RawPtr) (name : String) :
    Except Error RawPtr :=
  if containsNul name then
    .error ⟨createCfCStringMsg⟩
  else
    match engineCreate with
    | .error m => .error ⟨m⟩
    | .ok h => .ok h

/-- `TransactionDB::<SingleThreaded>::create_cf`: create the inner handle (the
`?` propagates failure before the registry is touched), then insert it into
the `BTreeMap` registry under the given name. -/
def createCfSingleThreaded (engineCreate : Except String RawPtr)
    (reg : Registry) (name : String) : Except Error Unit × Registry :=
  match createInnerCfHandle engineCreate name with
  | .error e => (.error e, reg)
  | .ok inner => (.ok (), assocPut reg name inner)

/-- `TransactionDB::<MultiThreaded>::create_cf`: same control flow; the
handle is wrapped in `Arc<UnboundColumnFamily>` and inserted under the
write lock (the wrapper and the lock carry no claim-relevant state beyond
the stored raw pointer). -/
def createCfMultiThreaded (engineCreate : Except String RawPtr)
    (reg : Registry) (name : String) : Except Error Unit × Registry :=
  match createInnerCfHandle engineCreate name with
  | .error e => (.error e, reg)
  | .ok inner => (.ok (), assocPut reg name inner)

/-- `cf_handle(name)` of either thread mode: a registry lookup. -/
def cfHandle (reg : Registry) (name : String) : Option RawPtr :=
  assocGet reg name

/-! ## Association-list lemmas -/

theorem find?_filter_of_imp {α : Type} (l : List α) (p q : α → Bool)
    (h : ∀ x, p x = true → q x = true) : (l.filter q).find? p = l.find? p := by
  induction l with
  | nil => rfl
  | cons a t ih =>
    by_cases hq : q a = true
    · by_cases hp : p a = true
      · simp [List.filter, List.find?, hq, hp]
      · simp [List.filter, List.find?, hq, hp, ih]
    · have hp : p a = false := by
        cases hpa : p a with
        | false => rfl
        | true => exact absurd (h a hpa) hq
      simp [List.filter, List.find?, hq, hp, ih]

theorem assocGet_put_self {α β : Type} [DecidableEq α] (m : List (α × β))
    (k : α) (v : β) : assocGet (assocPut m k v) k = some v := by
  unfold assocGet assocPut
  have hfilter :
      (m.filter (fun p => decide (p.1 ≠ k))).find? (fun p => decide (p.1 = k))
        = none := by
    rw [List.find?_eq_none]
    intro x hx
    have := List.of_mem_filter hx
    simp at this ⊢
    exact this
  rw [List.find?_append, hfilter]
  simp [List.find?]

theorem assocGet_put_ne {α β : Type} [DecidableEq α] (m : List (α × β))
    (k k' : α) (v : β) (hne : k' ≠ k) :
    assocGet (assocPut m k v) k' = assocGet m k' := by
  unfold assocGet assocPut
  rw [List.find?_append]
  have h1 :
      (m.filter (fun p => decide (p.1 ≠ k))).find? (fun p => decide (p.1 = k'))
        = m.find? (fun p => decide (p.1 = k')) := by
    apply find?_filter_of_imp
    intro x hx
    simp at hx ⊢
    rw [hx]
    exact hne
  rw [h1]
  have h2 : ([(k, v)].find? (fun p => decide (p.1 = k'))) = none := by
    have hd : decide (k = k') = false := by
      simp
      intro h
      exact hne h.symm
    simp [List.find?, hd]
  rw [h2]
  cases m.find? (fun p => decide (p.1 = k')) <;> rfl

theorem assocGet_del_self {α β : Type} [DecidableEq α] (m : List (α × β))
    (k : α) : assocGet (assocDel m k) k = none := by
  unfold assocGet assocDel
  have : (m.filter (fun p => decide (p.1 ≠ k))).find? (fun p => decide (p.1 = k))
      = none := by
    rw [List.find?_eq_none]
    intro x hx
    have := List.of_mem_filter hx
    simp at this ⊢
    exact this
  rw [this]
  rfl

theorem mem_assocPut {α β : Type} [DecidableEq α] (m : List (α × β))
    (k : α) (v : β) (p : α × β) :
    p ∈ assocPut m k v ↔ p = (k, v) ∨ (p ∈ m ∧ p.1 ≠ k) := by
  unfold assocPut
  rw [List.mem_append]
  constructor
  · rintro (hmem | hmem)
    · have hk := List.of_mem_filter hmem
      simp at hk
      exact Or.inr ⟨List.mem_of_mem_filter hmem, hk⟩
    · simp at hmem
      exact Or.inl hmem
  · rintro (rfl | ⟨hmem, hk⟩)
    · simp
    · exact Or.inl (List.mem_filter_of_mem hmem (by simpa using hk))

/-! ## Last-occurrence machinery

The registry-population loop inserts `(name, handle)` pairs in input order
into a map, so the registered value of a name is the one paired with its
last occurrence.  `lastAssoc` and `lastIdxOf` capture that. -/

/-- Value paired with the last occurrence of key `n` in `l`. -/
def lastAssoc {α : Type} : List (String × α) → String → Option α
  | [], _ => none
  | p :: l, n =>
    match lastAssoc l n with
    | some v => some v
    | none => if p.1 = n then some p.2 else none

theorem lastAssoc_nil {α : Type} (n : String) :
    lastAssoc ([] : List (String × α)) n = none := rfl

theorem lastAssoc_cons {α : Type} (p : String × α) (l : List (String × α))
    (n : String) :
    lastAssoc (p :: l) n =
      (match lastAssoc l n with
        | some v => some v
        | none => if p.1 = n then some p.2 else none) := rfl

/-- Index of the last occurrence of `n` in `names`. -/
def lastIdxOf : List String → String → Option Nat
  | [], _ => none
  | x :: xs, n =>
    match lastIdxOf xs n with
    | some i => some (i + 1)
    | none => if x = n then some 0 else none

theorem lastIdxOf_lt_length (names : List String) (n : String) (i : Nat)
    (h : lastIdxOf names n = some i) : i < names.length := by
  induction names generalizing i with
  | nil => simp [lastIdxOf] at h
  | cons x xs ih =>
    unfold lastIdxOf at h
    cases hx : lastIdxOf xs n with
    | some j =>
      rw [hx] at h
      simp at h
      subst h
      exact Nat.succ_lt_succ (ih j hx)
    | none =>
      rw [hx] at h
      by_cases hxn : x = n
      · simp [hxn] at h
        subst h
        exact Nat.succ_pos _
      · simp [hxn] at h

theorem lastAssoc_zip {α : Type} (names : List String) (vs : List α)
    (hlen : names.length = vs.length) (n : String) :
    lastAssoc (names.zip vs) n = (lastIdxOf names n).bind (fun i => vs[i]?) := by
  induction names generalizing vs with
  | nil =>
    cases vs with
    | nil => rfl
    | cons v vs' => simp at hlen
  | cons x xs ih =>
    cases vs with
    | nil => simp at hlen
    | cons v vs' =>
      simp at hlen
      unfold lastAssoc lastIdxOf
      rw [List.zip_cons_cons] at *
      show (match lastAssoc (xs.zip vs') n with
        | some w => some w
        | none => if x = n then some v else none) = _
      rw [ih vs' hlen]
      cases hx : lastIdxOf xs n with
      | some i =>
        have hi : i < vs'.length := hlen ▸ lastIdxOf_lt_length xs n i hx
        simp [List.getElem?_eq_getElem hi]
      | none =>
        by_cases hxn : x = n <;> simp [hxn]

theorem lastAssoc_mem {α : Type} (l : List (String × α)) (n : String) (v : α)
    (h : lastAssoc l n = some v) : (n, v) ∈ l := by
  induction l with
  | nil => simp [lastAssoc] at h
  | cons p t ih =>
    unfold lastAssoc at h
    cases ht : lastAssoc t n with
    | some w =>
      rw [ht] at h
      simp at h
      subst h
      exact List.mem_cons_of_mem _ (ih ht)
    | none =>
      rw [ht] at h
      by_cases hp : p.1 = n
      · simp [hp] at h
        have : p = (n, v) := Prod.ext hp h
        rw [← this]
        exact List.mem_cons_self _ _
      · simp [hp] at h

theorem lastAssoc_isSome_of_mem {α : Type} (l : List (String × α)) (n : String)
    (h : n ∈ l.map Prod.fst) : ∃ v, lastAssoc l n = some v := by
  induction l with
  | nil => simp at h
  | cons p t ih =>
    unfold lastAssoc
    cases ht : lastAssoc t n with
    | some w => exact ⟨w, rfl⟩
    | none =>
      simp at h
      rcases h with h | h
      · exact ⟨p.2, by simp [h]⟩
      · obtain ⟨v, hv⟩ := ih (by simpa using h)
        rw [hv] at ht
        cases ht

theorem assocGet_foldl_assocPut (l : List (String × RawPtr)) (m0 : Registry)
    (n : String) :
    assocGet (l.foldl (fun m p => assocPut m p.1 p.2) m0) n =
      (match lastAssoc l n with
        | some v => some v
        | none => assocGet m0 n) := by
  induction l generalizing m0 with
  | nil => rfl
  | cons p t ih =>
    show assocGet (t.foldl (fun m p => assocPut m p.1 p.2)
      (assocPut m0 p.1 p.2)) n = _
    rw [ih, lastAssoc_cons]
    cases ht : lastAssoc t n with
    | some v => simp
    | none =>
      by_cases hp : p.1 = n
      · subst hp
        rw [assocGet_put_self]
        simp
      · rw [assocGet_put_ne m0 p.1 n p.2 (fun h => hp h.symm)]
        simp [hp]

theorem mem_foldl_assocPut (l : List (String × RawPtr)) (m0 : Registry)
    (p : String × RawPtr) (hp : p ∈ l.foldl (fun m q => assocPut m q.1 q.2) m0) :
    lastAssoc l p.1 = some p.2 ∨ (lastAssoc l p.1 = none ∧ p ∈ m0) := by
  induction l generalizing m0 with
  | nil => exact Or.inr ⟨rfl, hp⟩
  | cons q t ih =>
    have hp' : p ∈ t.foldl (fun m q => assocPut m q.1 q.2)
        (assocPut m0 q.1 q.2) := hp
    rcases ih (assocPut m0 q.1 q.2) hp' with h | ⟨hnone, hmem⟩
    · left
      rw [lastAssoc_cons, h]
    · rcases (mem_assocPut m0 q.1 q.2 p).mp hmem with rfl | ⟨hm0, hne⟩
      · left
        rw [lastAssoc_cons, hnone]
        simp
      · right
        refine ⟨?_, hm0⟩
        have hq : ¬ q.1 = p.1 := fun h => hne (Eq.symm h)
        rw [lastAssoc_cons, hnone]
        simp only [if_neg hq]

/-! ## `allSome` lemmas -/

theorem allSome_eq_some {α : Type} (l : List (Option α)) (xs : List α)
    (h : allSome l = some xs) : l = xs.map (fun a => some a) := by
  induction l generalizing xs with
  | nil =>
    simp [allSome] at h
    subst h
    rfl
  | cons a t ih =>
    cases a with
    | none => simp [allSome] at h
    | some b =>
      simp only [allSome, Option.map_eq_some'] at h
      obtain ⟨ys, hys, rfl⟩ := h
      simp [ih ys hys]

theorem allSome_eq_none {α : Type} (l : List (Option α)) (h : none ∈ l) :
    allSome l = none := by
  induction l with
  | nil => simp at h
  | cons a t ih =>
    cases a with
    | none => rfl
    | some b =>
      have ht : none ∈ t := by
        rcases List.mem_cons.mp h with h' | h'
        · exact absurd h' (by simp)
        · exact h'
      simp [allSome, ih ht]

theorem allSome_isSome {α : Type} (l : List (Option α))
    (h : ∀ x ∈ l, x ≠ none) : ∃ xs, allSome l = some xs := by
  induction l with
  | nil => exact ⟨[], rfl⟩
  | cons a t ih =>
    cases a with
    | none => exact absurd rfl (h none (List.mem_cons_self _ _))
    | some b =>
      obtain ⟨xs, hxs⟩ := ih (fun x hx => h x (List.mem_cons_of_mem _ hx))
      exact ⟨b :: xs, by simp [allSome, hxs]⟩

/-! ## Inversion of the open path -/

/-- A successful non-empty open went through the column-family branch: the
engine reported success, every slot of the output handle vector was non-null,
the registry is the insert-fold over the (default-augmented) names zipped
with those handles, and the database handle was non-null. -/
theorem open_ok_elim (env : OpenEnv) (cfs : List CFDesc) (db : TxnDB)
    (tr : List Event) (hne : cfs ≠ [])
    (hok : openCfDescriptorsInternal env cfs = (.ok db, tr)) :
    ∃ hs : List Handle,
      allSome ((List.range (augmentDefault cfs).length).map env.cfOpenHandle)
          = some hs ∧
      db.cfs = buildRegistry (((augmentDefault cfs).map CFDesc.name).zip
        (hs.map (fun h => some h))) ∧
      env.cfOpenDb = some db.inner ∧ tr = [.openCfRaw] := by
  obtain ⟨cp, de, ro, coe, cod, ch⟩ := env
  unfold openCfDescriptorsInternal at hok
  cases cp with
  | some e => simp at hok
  | none =>
  cases de with
  | some m => simp at hok
  | none =>
  rw [if_neg hne] at hok
  cases hnul : (augmentDefault cfs).any (fun cf => containsNul cf.name) with
  | true => rw [hnul] at hok; simp at hok
  | false =>
  rw [hnul] at hok
  rw [if_neg Bool.false_ne_true] at hok
  cases coe with
  | some m => simp at hok
  | none =>
  cases hall : allSome ((List.range (augmentDefault cfs).length).map ch) with
  | none => rw [hall] at hok; simp at hok
  | some hs =>
  rw [hall] at hok
  cases cod with
  | none => simp at hok
  | some d =>
  cases hok
  exact ⟨hs, rfl, rfl, rfl, rfl⟩

theorem none_mem_map_range {α : Type} (f : Nat → Option α) (n : Nat)
    (h : ∃ i, i < n ∧ f i = none) : none ∈ (List.range n).map f := by
  obtain ⟨i, hi, hfi⟩ := h
  rw [List.mem_map]
  exact ⟨i, List.mem_range.mpr hi, hfi⟩

theorem map_range_all_some {α : Type} (f : Nat → Option α) (n : Nat)
    (h : ∀ i, i < n → f i ≠ none) :
    ∀ x ∈ (List.range n).map f, x ≠ none := by
  intro x hx
  rw [List.mem_map] at hx
  obtain ⟨i, hi, rfl⟩ := hx
  exact h i (List.mem_range.mp hi)

/-! ## Claim theorems -/

/-- C4: for every open invocation in which path marshalling and directory
creation succeed.  On the empty-descriptor branch (taken by `open` and
`open_cf` with no names): a null database handle from the raw engine open
returns the initialization error.  On the non-empty branch (once name
marshalling succeeds): an engine-reported open failure passes the engine's
message through; a null column-family handle despite a reported-success open
returns the dedicated consistency error; with all column-family handles
non-null, a null database handle returns the initialization error.  The two
dedicated errors are distinct; in every error case the result is `.err`, so
no `TransactionDB` value is constructed. -/
theorem open_null_engine_handles_are_fatal (env : OpenEnv) (cfs : List CFDesc)
    (m : String) (hcp : env.cpathErr = none) (hde : env.dirErr = none) :
    (cfs = [] → env.rawOpen = .ok none →
      openCfDescriptorsInternal env cfs = (.err ⟨nullDbMsg⟩, [.openRaw])) ∧
    (cfs ≠ [] →
      (augmentDefault cfs).any (fun cf => containsNul cf.name) = false →
      (env.cfOpenErr = some m →
        openCfDescriptorsInternal env cfs = (.err ⟨m⟩, [.openCfRaw])) ∧
      (env.cfOpenErr = none →
        (∃ i, i < (augmentDefault cfs).length ∧ env.cfOpenHandle i = none) →
        openCfDescriptorsInternal env cfs = (.err ⟨nullCfHandleMsg⟩,
          [.openCfRaw])) ∧
      (env.cfOpenErr = none →
        (∀ i, i < (augmentDefault cfs).length → env.cfOpenHandle i ≠ none) →
        env.cfOpenDb = none →
        openCfDescriptorsInternal env cfs = (.err ⟨nullDbMsg⟩,
          [.openCfRaw]))) ∧
    nullCfHandleMsg ≠ nullDbMsg := by
  refine ⟨?_, ?_, by decide⟩
  · rintro rfl hraw
    simp [openCfDescriptorsInternal, hcp, hde, hraw]
  · intro hne hnul
    refine ⟨?_, ?_, ?_⟩
    · intro hcoe
      simp [openCfDescriptorsInternal, hcp, hde, hne, hnul, hcoe]
    · intro hcoe hnull
      have hnone : allSome ((List.range (augmentDefault cfs).length).map
          env.cfOpenHandle) = none :=
        allSome_eq_none _ (none_mem_map_range _ _ hnull)
      simp [openCfDescriptorsInternal, hcp, hde, hne, hnul, hcoe, hnone]
    · intro hcoe hnn hcod
      obtain ⟨hs, hhs⟩ := allSome_isSome _ (map_range_all_some _ _ hnn)
      simp [openCfDescriptorsInternal, hcp, hde, hne, hnul, hcoe, hhs, hcod]

/-- Environment used by witnesses: marshalling and directory creation succeed,
the engine reports success, but writes null into every column-family handle
slot. -/
def envNullCf : OpenEnv :=
  { cpathErr := none, dirErr := none, rawOpen := .ok (some 1),
    cfOpenErr := none, cfOpenDb := some 1, cfOpenHandle := fun _ => none }

/-- Environment used by witnesses: marshalling and directory creation succeed,
the raw engine open reports success but returns a null database handle. -/
def envNullDb : OpenEnv :=
  { cpathErr := none, dirErr := none, rawOpen := .ok none,
    cfOpenErr := none, cfOpenDb := none, cfOpenHandle := fun _ => some 1 }

theorem open_null_engine_handles_are_fatal_witness :
    openCfDescriptorsInternal envNullDb [] = (.err ⟨nullDbMsg⟩, [.openRaw]) ∧
    openCfDescriptorsInternal envNullCf [⟨"x"⟩] =
      (.err ⟨nullCfHandleMsg⟩, [.openCfRaw]) :=
  ⟨(open_null_engine_handles_are_fatal envNullDb [] "m" rfl rfl).1 rfl rfl,
    ((open_null_engine_handles_are_fatal envNullCf [⟨"x"⟩] "m" rfl rfl).2.1
      (by decide) (by decide)).2.1 rfl ⟨0, by decide, rfl⟩⟩

/-- C10: on the open error path where the engine's multi-column-family open
reported success (a database handle may already exist) but some returned
column-family handle is null, the open returns the error and its engine-call
trace contains no close-database and no release-column-family call: the raw
handles are simply dropped, and since no `TransactionDB` is constructed the
`Drop` teardown never runs for them. -/
theorem open_null_cf_error_leaks_handles (env : OpenEnv) (cfs : List CFDesc)
    (hcp : env.cpathErr = none) (hde : env.dirErr = none) (hne : cfs ≠ [])
    (hnul : (augmentDefault cfs).any (fun cf => containsNul cf.name) = false)
    (hcoe : env.cfOpenErr = none)
    (hnull : ∃ i, i < (augmentDefault cfs).length ∧ env.cfOpenHandle i = none) :
    openCfDescriptorsInternal env cfs = (.err ⟨nullCfHandleMsg⟩, [.openCfRaw]) ∧
    (∀ e ∈ (openCfDescriptorsInternal env cfs).2,
      e.isCloseDb = false ∧ e.isDestroyCf = false) := by
  have hnone : allSome ((List.range (augmentDefault cfs).length).map
      env.cfOpenHandle) = none :=
    allSome_eq_none _ (none_mem_map_range _ _ hnull)
  have hres : openCfDescriptorsInternal env cfs =
      (.err ⟨nullCfHandleMsg⟩, [.openCfRaw]) := by
    simp [openCfDescriptorsInternal, hcp, hde, hne, hnul, hcoe, hnone]
  refine ⟨hres, ?_⟩
  rw [hres]
  intro e he
  rcases List.mem_singleton.mp he with rfl
  exact ⟨rfl, rfl⟩

theorem open_null_cf_error_leaks_handles_witness :
    openCfDescriptorsInternal envNullCf [⟨"y"⟩] =
      (.err ⟨nullCfHandleMsg⟩, [.openCfRaw]) ∧
    (∀ e ∈ (openCfDescriptorsInternal envNullCf [⟨"y"⟩]).2,
      e.isCloseDb = false ∧ e.isDestroyCf = false) :=
  open_null_cf_error_leaks_handles envNullCf [⟨"y"⟩] rfl rfl (by decide)
    (by decide) rfl ⟨0, by decide, rfl⟩

/-- C3 counterexample: the empty descriptor set lacks a default-named
descriptor, yet a successful open through the empty branch yields an empty
registry with no default-named handle — the default augmentation only runs in
the non-empty branch. -/
def envEmptyOk : OpenEnv :=
  { cpathErr := none, dirErr := none, rawOpen := .ok (some 1),
    cfOpenErr := none, cfOpenDb := some 1, cfOpenHandle := fun _ => some 1 }

theorem open_empty_set_has_no_default_handle :
    openCfDescriptorsInternal envEmptyOk [] = (.ok ⟨1, []⟩, [.openRaw]) ∧
    cfHandle (TxnDB.mk 1 []).cfs defaultColumnFamilyName = none := by
  constructor
  · rfl
  · rfl

/-- C3 (amended): for every NON-EMPTY descriptor set passed to
`open_cf_descriptors` that lacks a descriptor with the default column-family
name, a successful open yields a registry that contains a default-named
column-family handle (a default descriptor with default options is appended
during open).  The empty set instead takes the raw-open branch and its
registry contains no handle at all. -/
theorem open_nonempty_registry_has_default (env : OpenEnv)
    (cfs : List CFDesc) (db : TxnDB) (tr : List Event) (hne : cfs ≠ [])
    (hlacks : cfs.any (fun cf => decide (cf.name = defaultColumnFamilyName))
      = false)
    (hok : openCfDescriptorsInternal env cfs = (.ok db, tr)) :
    ∃ h : Handle, cfHandle db.cfs defaultColumnFamilyName = some (some h) := by
  obtain ⟨hs, hall, hreg, hdb, htr⟩ := open_ok_elim env cfs db tr hne hok
  have haug : augmentDefault cfs = cfs ++ [⟨defaultColumnFamilyName⟩] := by
    unfold augmentDefault
    rw [hlacks]
    simp
  have hlen : ((augmentDefault cfs).map CFDesc.name).length =
      (hs.map (fun h => some h)).length := by
    have h1 := allSome_eq_some _ _ hall
    have h2 : ((List.range (augmentDefault cfs).length).map
        env.cfOpenHandle).length = (hs.map (fun h => some h)).length := by
      rw [h1]
    simpa using h2
  have hmem : defaultColumnFamilyName ∈ (augmentDefault cfs).map CFDesc.name := by
    rw [haug]
    simp
  have hmem' : defaultColumnFamilyName ∈
      (((augmentDefault cfs).map CFDesc.name).zip
        (hs.map (fun h => some h))).map Prod.fst := by
    rw [List.map_fst_zip _ _ (le_of_eq hlen)]
    exact hmem
  obtain ⟨v, hv⟩ := lastAssoc_isSome_of_mem _ _ hmem'
  have hvmem := lastAssoc_mem _ _ _ hv
  have hvsome : ∃ h0 : Handle, v = some h0 := by
    have := List.of_mem_zip hvmem
    obtain ⟨-, hvr⟩ := this
    rw [List.mem_map] at hvr
    obtain ⟨h0, -, hh0⟩ := hvr
    exact ⟨h0, hh0.symm⟩
  obtain ⟨h0, rfl⟩ := hvsome
  refine ⟨h0, ?_⟩
  unfold cfHandle
  rw [hreg]
  unfold buildRegistry
  rw [assocGet_foldl_assocPut, hv]

theorem open_nonempty_registry_has_default_witness :
    (([⟨"w"⟩] : List CFDesc) ≠ [] ∧
      ([⟨"w"⟩] : List CFDesc).any
        (fun cf => decide (cf.name = defaultColumnFamilyName)) = false) ∧
    (∃ h : Handle, cfHandle (TxnDB.mk 1
        (buildRegistry [("w", some 7), ("default", some 7)])).cfs
      defaultColumnFamilyName = some (some h)) :=
  ⟨⟨by decide, by decide⟩,
    open_nonempty_registry_has_default
      { cpathErr := none, dirErr := none, rawOpen := .ok (some 1),
        cfOpenErr := none, cfOpenDb := some 1, cfOpenHandle := fun _ => some 7 }
      [⟨"w"⟩] _ _ (by decide) (by decide) rfl⟩

/-- C9: after a successful non-empty open, the registry maps each descriptor
name of the default-augmented list to the engine handle at the position of
the name's last occurrence, and every registry entry's handle is the handle
of its name's last occurrence — earlier handles of a duplicated name are
never entered into the registry. -/
theorem open_registry_maps_last_occurrence (env : OpenEnv) (cfs : List CFDesc)
    (db : TxnDB) (tr : List Event) (hne : cfs ≠ [])
    (hok : openCfDescriptorsInternal env cfs = (.ok db, tr)) :
    (∀ n i, lastIdxOf ((augmentDefault cfs).map CFDesc.name) n = some i →
      cfHandle db.cfs n = some (env.cfOpenHandle i)) ∧
    (∀ p ∈ db.cfs, ∃ i,
      lastIdxOf ((augmentDefault cfs).map CFDesc.name) p.1 = some i ∧
      p.2 = env.cfOpenHandle i) := by
  obtain ⟨hs, hall, hreg, hdb, htr⟩ := open_ok_elim env cfs db tr hne hok
  have h1 := allSome_eq_some _ _ hall
  have hlen2 := congrArg List.length h1
  simp at hlen2
  have hlen : ((augmentDefault cfs).map CFDesc.name).length =
      (hs.map (fun h => some h)).length := by
    simp [hlen2]
  have hL : ∀ i, i < (augmentDefault cfs).length →
      (hs.map (fun h => some h))[i]? = some (env.cfOpenHandle i) := by
    intro i hi
    rw [← h1, List.getElem?_map, List.getElem?_range hi]
    rfl
  constructor
  · intro n i hio
    have hi' : i < (augmentDefault cfs).length := by
      have := lastIdxOf_lt_length _ _ _ hio
      simpa using this
    unfold cfHandle
    rw [hreg]
    unfold buildRegistry
    rw [assocGet_foldl_assocPut, lastAssoc_zip _ _ hlen, hio,
      Option.some_bind, hL i hi']
  · intro p hp
    rw [hreg] at hp
    unfold buildRegistry at hp
    rcases mem_foldl_assocPut _ _ _ hp with hla | ⟨-, hfalse⟩
    · rw [lastAssoc_zip _ _ hlen] at hla
      cases hix : lastIdxOf ((augmentDefault cfs).map CFDesc.name) p.1 with
      | none =>
        rw [hix] at hla
        simp at hla
      | some i =>
        rw [hix] at hla
        simp only [Option.some_bind] at hla
        have hi' : i < (augmentDefault cfs).length := by
          have := lastIdxOf_lt_length _ _ _ hix
          simpa using this
        rw [hL i hi'] at hla
        simp at hla
        exact ⟨i, rfl, hla.symm⟩
    · exact absurd hfalse (List.not_mem_nil p)

theorem open_registry_maps_last_occurrence_witness :
    (([⟨"w"⟩, ⟨"w"⟩] : List CFDesc) ≠ [] ∧
      lastIdxOf ((augmentDefault [⟨"w"⟩, ⟨"w"⟩]).map CFDesc.name) "w"
        = some 1) ∧
    cfHandle (buildRegistry [("w", some 10), ("w", some 11),
      ("default", some 12)]) "w" = some (some 11) :=
  ⟨⟨by decide, by decide⟩,
    (open_registry_maps_last_occurrence
      { cpathErr := none, dirErr := none, rawOpen := .ok (some 1),
        cfOpenErr := none, cfOpenDb := some 1,
        cfOpenHandle := fun i => some (i + 10) }
      [⟨"w"⟩, ⟨"w"⟩] _ _ (by decide) rfl).1 "w" 1 (by decide)⟩

/-- Every element of the registry-teardown part of the drop trace is a
`destroyCf` event. -/
theorem dropAllCfs_elem (reg : Registry) (k : Nat) (e : Event)
    (hk : (dropAllCfsInternal reg)[k]? = some e) :
    ∃ q : RawPtr, e = Event.destroyCf q := by
  unfold dropAllCfsInternal at hk
  rw [List.getElem?_map] at hk
  cases hq : reg[k]? with
  | none => rw [hq] at hk; cases hk
  | some q =>
    rw [hq] at hk
    simp at hk
    exact ⟨q.2, hk.symm⟩

/-- C1: in the teardown trace of a `TransactionDB`, every column-family
release strictly precedes the database close, every registry entry is
released, and the database handle is closed exactly once. -/
theorem drop_releases_cfs_before_close (db : TxnDB) :
    (∀ (i j : Nat) (p : RawPtr) (h : Handle),
      (dropTxnDB db)[i]? = some (Event.destroyCf p) →
      (dropTxnDB db)[j]? = some (Event.closeDb h) → i < j) ∧
    (∀ p ∈ db.cfs, Event.destroyCf p.2 ∈ dropTxnDB db) ∧
    (dropTxnDB db).countP Event.isCloseDb = 1 := by
  have hlen : (dropAllCfsInternal db.cfs).length = db.cfs.length := by
    unfold dropAllCfsInternal
    simp
  refine ⟨?_, ?_, ?_⟩
  · intro i j p h hi hj
    have hjn : ¬ j < (dropAllCfsInternal db.cfs).length := by
      intro hlt
      rw [show dropTxnDB db =
          dropAllCfsInternal db.cfs ++ [Event.closeDb db.inner] from rfl,
        List.getElem?_append_left hlt] at hj
      obtain ⟨q, hq⟩ := dropAllCfs_elem db.cfs j _ hj
      cases hq
    have hjlt : j < (dropTxnDB db).length := by
      rcases List.getElem?_eq_some.mp hj with ⟨hlt, -⟩
      exact hlt
    have hjlen : (dropTxnDB db).length = (dropAllCfsInternal db.cfs).length + 1 := by
      unfold dropTxnDB
      simp
    have hje : j = (dropAllCfsInternal db.cfs).length := by
      omega
    have hin : i < (dropAllCfsInternal db.cfs).length := by
      have hilt : i < (dropTxnDB db).length := by
        rcases List.getElem?_eq_some.mp hi with ⟨hlt, -⟩
        exact hlt
      have hine : i ≠ (dropAllCfsInternal db.cfs).length := by
        intro heq
        rw [heq] at hi
        rw [show dropTxnDB db =
            dropAllCfsInternal db.cfs ++ [Event.closeDb db.inner] from rfl,
          List.getElem?_append_right (Nat.le_refl _)] at hi
        simp at hi
      omega
    omega
  · intro p hp
    exact List.mem_append_left _ (List.mem_map_of_mem _ hp)
  · rw [show dropTxnDB db =
        dropAllCfsInternal db.cfs ++ [Event.closeDb db.inner] from rfl,
      List.countP_append]
    have h0 : (dropAllCfsInternal db.cfs).countP Event.isCloseDb = 0 := by
      rw [List.countP_eq_zero]
      intro e he
      unfold dropAllCfsInternal at he
      rw [List.mem_map] at he
      obtain ⟨q, -, rfl⟩ := he
      simp [Event.isCloseDb]
    rw [h0]
    rfl

theorem drop_releases_cfs_before_close_witness :
    ((dropTxnDB ⟨5, [("a", some 7)]⟩)[0]? = some (Event.destroyCf (some 7)) ∧
      (dropTxnDB ⟨5, [("a", some 7)]⟩)[1]? = some (Event.closeDb 5) ∧
      (0 : Nat) < 1) ∧
    (dropTxnDB ⟨5, [("a", some 7)]⟩).countP Event.isCloseDb = 1 :=
  ⟨⟨by decide, by decide,
      (drop_releases_cfs_before_close ⟨5, [("a", some 7)]⟩).1 0 1 (some 7) 5
        (by decide) (by decide)⟩,
    (drop_releases_cfs_before_close ⟨5, [("a", some 7)]⟩).2.2⟩

/-- C2 counterexample: when the engine's begin-transaction call returns a null
handle, `transaction_opt` produces an ordinary `Transaction` wrapping the null
pointer with no error of any kind at creation, whereas the claim's reading
demands an error surfaced at creation time. -/
theorem transaction_null_handle_not_surfaced :
    transactionOpt none = { inner := none } ∧
    transactionOptPerSpec none =
      .error ⟨"begin transaction returned a null handle"⟩ ∧
    Except.ok (transactionOpt none) ≠ transactionOptPerSpec none := by
  refine ⟨rfl, rfl, ?_⟩
  intro h
  cases h

/-- C2 (amended): every call to `transaction` or `transaction_opt` produces a
`Transaction` handle object wrapping exactly the pointer the engine's
begin-transaction call returned; a failed/null engine handle is not checked
and not surfaced as an error at creation time — the null pointer is stored in
the handle as-is, deferring any consequence to use of the transaction. -/
theorem transaction_always_wraps_engine_result (r : RawPtr) :
    transaction r = transactionOpt r ∧ transactionOpt r = { inner := r } :=
  ⟨rfl, rfl⟩

/-- C5: against the correct-engine key-value model, `put(k, v)` then `get(k)`
returns `Ok(Some(v))`, and `delete(k)` then `get(k)` returns `Ok(None)`;
the mutations themselves return `Ok(())`. -/
theorem put_get_delete_round_trip (s : KVState) (k v : Bytes) :
    (putOptKV s k v).1 = .ok () ∧
    getOptKV (putOptKV s k v).2 k = .ok (some v) ∧
    (deleteOptKV s k).1 = .ok () ∧
    getOptKV (deleteOptKV s k).2 k = .ok none := by
  refine ⟨rfl, ?_, rfl, ?_⟩
  · show getRespToResult (.ok (engineGet (enginePut s k v) k)) = .ok (some v)
    rw [show engineGet (enginePut s k v) k = some v from
      assocGet_put_self s k v]
    rfl
  · show getRespToResult (.ok (engineGet (engineDelete s k) k)) = .ok none
    rw [show engineGet (engineDelete s k) k = none from
      assocGet_del_self s k]
    rfl

/-- C6: a column-family name with an interior NUL byte makes
`open_cf_descriptors` panic at `CString::new(..).unwrap()` instead of
returning an error, while the same conversion failure in
`create_inner_cf_handle` (the create-cf path) is returned as an error. -/
theorem open_panics_on_interior_nul_name :
    openCfDescriptorsInternal envEmptyOk [⟨"a\x00b"⟩]
      = (.panic cstringUnwrapPanicMsg, []) ∧
    createInnerCfHandle (.ok (some 1)) "a\x00b"
      = .error ⟨createCfCStringMsg⟩ := by
  constructor
  · decide
  · rfl

/-- C7: across the `get` family, an engine reported-success null value pointer
becomes the distinct success value `Ok(None)`, a present value is returned as
`Ok(Some(v))`, an engine failure becomes a structured error carrying the
engine's message, the default-option forms funnel into the explicit-option
forms, and `Ok(None)` is never equal to an error result. -/
theorem get_absence_is_ok_none (e : EngineReader) (k : Bytes)
    (ro : ReadOptions) (cf : RawPtr) :
    (e.getResp k ro = .ok none → getOpt e k ro = .ok none) ∧
    (∀ m, e.getResp k ro = .error m → getOpt e k ro = .error ⟨m⟩) ∧
    (∀ v, e.getResp k ro = .ok (some v) → getOpt e k ro = .ok (some v)) ∧
    (e.getCfResp cf k ro = .ok none → getCfOpt e cf k ro = .ok none) ∧
    (∀ m, e.getCfResp cf k ro = .error m → getCfOpt e cf k ro = .error ⟨m⟩) ∧
    (∀ v, e.getCfResp cf k ro = .ok (some v) →
      getCfOpt e cf k ro = .ok (some v)) ∧
    dbGet e k = getOpt e k .dflt ∧ dbGetCf e cf k = getCfOpt e cf k .dflt ∧
    (∀ err : Error,
      (Except.ok none : Except Error (Option Bytes)) ≠ .error err) := by
  refine ⟨?_, ?_, ?_, ?_, ?_, ?_, rfl, rfl, ?_⟩
  · intro h
    simp [getOpt, getRespToResult, h]
  · intro m h
    simp [getOpt, getRespToResult, h]
  · intro v h
    simp [getOpt, getRespToResult, h]
  · intro h
    simp [getCfOpt, getRespToResult, h]
  · intro m h
    simp [getCfOpt, getRespToResult, h]
  · intro v h
    simp [getCfOpt, getRespToResult, h]
  · intro err h
    cases h

/-- An engine reader whose every lookup reports success with a null value
pointer. -/
def readerNotFound : EngineReader :=
  { getResp := fun _ _ => .ok none, getCfResp := fun _ _ _ => .ok none }

theorem get_absence_is_ok_none_witness :
    readerNotFound.getResp [] .dflt = .ok none ∧
    getOpt readerNotFound [] .dflt = .ok none :=
  ⟨rfl, (get_absence_is_ok_none readerNotFound [] .dflt none).1 rfl⟩

/-- C8: for both thread-mode variants of `create_cf` on a name without an
interior NUL: an engine failure is returned as an engine error carrying the
engine's message and the registry is left unmodified; on success the returned
handle is inserted under the given name and resolvable by `cf_handle`. -/
theorem create_cf_failure_leaves_registry_unmodified
    (resp : Except String RawPtr) (reg : Registry) (name : String)
    (hname : containsNul name = false) :
    (∀ m, resp = .error m →
      createCfSingleThreaded resp reg name = (.error ⟨m⟩, reg) ∧
      createCfMultiThreaded resp reg name = (.error ⟨m⟩, reg)) ∧
    (∀ h, resp = .ok h →
      createCfSingleThreaded resp reg name = (.ok (), assocPut reg name h) ∧
      createCfMultiThreaded resp reg name = (.ok (), assocPut reg name h) ∧
      cfHandle (assocPut reg name h) name = some h) := by
  constructor
  · rintro m rfl
    constructor <;>
      simp [createCfSingleThreaded, createCfMultiThreaded,
        createInnerCfHandle, hname]
  · rintro h rfl
    refine ⟨?_, ?_, ?_⟩
    · simp [createCfSingleThreaded, createInnerCfHandle, hname]
    · simp [createCfMultiThreaded, createInnerCfHandle, hname]
    · exact assocGet_put_self reg name h

theorem create_cf_failure_leaves_registry_unmodified_witness :
    containsNul "cfx" = false ∧
    createCfSingleThreaded (.error "boom") [("a", some 1)] "cfx"
      = (.error ⟨"boom"⟩, [("a", some 1)]) :=
  ⟨by decide,
    ((create_cf_failure_leaves_registry_unmodified (.error "boom")
      [("a", some 1)] "cfx" (by decide)).1 "boom" rfl).1⟩

end TxnDBModel
